import Mathlib

/- Shallow embedding of the raytracer core (collision, shading, path tracer).
   Vectors are triples of real numbers; the JS number type is modelled by the
   real field, with division by zero following the Lean convention x / 0 = 0.
   Randomness (Math.random) is modelled by an explicit stream of draws
   rng : Nat -> Real together with a cursor counting draws consumed so far. -/

namespace Raytracer

/- gl-matrix vec3, as used by the renderer: an ordered triple of numbers. -/
structure Vec3 where
  x : ℝ
  y : ℝ
  z : ℝ

namespace Vec3

theorem ext_iff_comp {a b : Vec3} : a = b ↔ a.x = b.x ∧ a.y = b.y ∧ a.z = b.z := by
  constructor
  · rintro rfl
    exact ⟨rfl, rfl, rfl⟩
  · rintro ⟨hx, hy, hz⟩
    cases a
    cases b
    simp_all

instance : Add Vec3 := ⟨fun a b => ⟨a.x + b.x, a.y + b.y, a.z + b.z⟩⟩

instance : Sub Vec3 := ⟨fun a b => ⟨a.x - b.x, a.y - b.y, a.z - b.z⟩⟩

/- vec3.multiply: componentwise product. -/
instance : Mul Vec3 := ⟨fun a b => ⟨a.x * b.x, a.y * b.y, a.z * b.z⟩⟩

/- vec3.scale: scalar multiple. -/
instance : SMul ℝ Vec3 := ⟨fun r v => ⟨r * v.x, r * v.y, r * v.z⟩⟩

/- vec3.create(): the zero vector. -/
instance : Zero Vec3 := ⟨⟨0, 0, 0⟩⟩

@[simp] theorem add_x (a b : Vec3) : (a + b).x = a.x + b.x := rfl

@[simp] theorem add_y (a b : Vec3) : (a + b).y = a.y + b.y := rfl

@[simp] theorem add_z (a b : Vec3) : (a + b).z = a.z + b.z := rfl

@[simp] theorem sub_x (a b : Vec3) : (a - b).x = a.x - b.x := rfl

@[simp] theorem sub_y (a b : Vec3) : (a - b).y = a.y - b.y := rfl

@[simp] theorem sub_z (a b : Vec3) : (a - b).z = a.z - b.z := rfl

@[simp] theorem mul_x (a b : Vec3) : (a * b).x = a.x * b.x := rfl

@[simp] theorem mul_y (a b : Vec3) : (a * b).y = a.y * b.y := rfl

@[simp] theorem mul_z (a b : Vec3) : (a * b).z = a.z * b.z := rfl

@[simp] theorem smul_x (r : ℝ) (v : Vec3) : (r • v).x = r * v.x := rfl

@[simp] theorem smul_y (r : ℝ) (v : Vec3) : (r • v).y = r * v.y := rfl

@[simp] theorem smul_z (r : ℝ) (v : Vec3) : (r • v).z = r * v.z := rfl

@[simp] theorem zero_x : (0 : Vec3).x = 0 := rfl

@[simp] theorem zero_y : (0 : Vec3).y = 0 := rfl

@[simp] theorem zero_z : (0 : Vec3).z = 0 := rfl

@[simp] theorem mk_x (a b c : ℝ) : (Vec3.mk a b c).x = a := rfl

@[simp] theorem mk_y (a b c : ℝ) : (Vec3.mk a b c).y = b := rfl

@[simp] theorem mk_z (a b c : ℝ) : (Vec3.mk a b c).z = c := rfl

/- vec3.dot. -/
def dot (a b : Vec3) : ℝ := a.x * b.x + a.y * b.y + a.z * b.z

/- vec3.sqrLen: squared Euclidean length. -/
def sqrLen (v : Vec3) : ℝ := v.x * v.x + v.y * v.y + v.z * v.z

/- vec3.cross. -/
def cross (a b : Vec3) : Vec3 :=
  ⟨a.y * b.z - a.z * b.y, a.z * b.x - a.x * b.z, a.x * b.y - a.y * b.x⟩

/- vec3.normalize: scale by the reciprocal of the length; gl-matrix leaves the
   zero vector fixed, and with the real-division convention 1 / 0 = 0 so does
   this definition. -/
noncomputable def normalize (v : Vec3) : Vec3 := (1 / Real.sqrt (sqrLen v)) • v

theorem sqrLen_nonneg (v : Vec3) : 0 ≤ sqrLen v := by
  unfold sqrLen
  nlinarith [mul_self_nonneg v.x, mul_self_nonneg v.y, mul_self_nonneg v.z]

theorem dot_comm (a b : Vec3) : dot a b = dot b a := by
  unfold dot
  ring

theorem dot_self_eq_sqrLen (v : Vec3) : dot v v = sqrLen v := by
  unfold dot sqrLen
  ring

theorem dot_cross_left (a b : Vec3) : dot (cross a b) a = 0 := by
  unfold dot cross
  simp only [mk_x, mk_y, mk_z]
  ring

theorem dot_cross_right (a b : Vec3) : dot (cross a b) b = 0 := by
  unfold dot cross
  simp only [mk_x, mk_y, mk_z]
  ring

theorem sqrLen_cross (a b : Vec3) :
    sqrLen (cross a b) = sqrLen a * sqrLen b - dot a b ^ 2 := by
  unfold sqrLen cross dot
  simp only [mk_x, mk_y, mk_z]
  ring

theorem sqrLen_smul (r : ℝ) (v : Vec3) : sqrLen (r • v) = r ^ 2 * sqrLen v := by
  unfold sqrLen
  simp only [smul_x, smul_y, smul_z]
  ring

theorem dot_smul_left (r : ℝ) (v w : Vec3) : dot (r • v) w = r * dot v w := by
  unfold dot
  simp only [smul_x, smul_y, smul_z]
  ring

theorem sqrLen_normalize (v : Vec3) (h : sqrLen v ≠ 0) : sqrLen (normalize v) = 1 := by
  unfold normalize
  rw [sqrLen_smul]
  have hnn := sqrLen_nonneg v
  have hsq : Real.sqrt (sqrLen v) ^ 2 = sqrLen v := Real.sq_sqrt hnn
  have hs : Real.sqrt (sqrLen v) ≠ 0 := by
    intro h0
    apply h
    rw [← hsq, h0]
    ring
  field_simp

theorem sqrLen_expand (a b c : ℝ) (u v w : Vec3) :
    sqrLen (a • u + b • v + c • w) =
      a ^ 2 * sqrLen u + b ^ 2 * sqrLen v + c ^ 2 * sqrLen w +
        2 * a * b * dot u v + 2 * a * c * dot u w + 2 * b * c * dot v w := by
  unfold sqrLen dot
  simp only [add_x, add_y, add_z, smul_x, smul_y, smul_z]
  ring

theorem dot_expand (a b c : ℝ) (u v w n : Vec3) :
    dot (a • u + b • v + c • w) n = a * dot u n + b * dot v n + c * dot w n := by
  unfold dot
  simp only [add_x, add_y, add_z, smul_x, smul_y, smul_z]
  ring

/- Componentwise non-negativity, the invariant asserted for all radiance and
   color quantities. -/
def Nonneg (v : Vec3) : Prop := 0 ≤ v.x ∧ 0 ≤ v.y ∧ 0 ≤ v.z

theorem Nonneg.zero : Nonneg (0 : Vec3) := ⟨le_refl 0, le_refl 0, le_refl 0⟩

theorem Nonneg.add {a b : Vec3} (ha : Nonneg a) (hb : Nonneg b) : Nonneg (a + b) :=
  ⟨add_nonneg ha.1 hb.1, add_nonneg ha.2.1 hb.2.1, add_nonneg ha.2.2 hb.2.2⟩

theorem Nonneg.mul {a b : Vec3} (ha : Nonneg a) (hb : Nonneg b) : Nonneg (a * b) :=
  ⟨mul_nonneg ha.1 hb.1, mul_nonneg ha.2.1 hb.2.1, mul_nonneg ha.2.2 hb.2.2⟩

theorem Nonneg.smul {r : ℝ} {v : Vec3} (hr : 0 ≤ r) (hv : Nonneg v) : Nonneg (r • v) :=
  ⟨mul_nonneg hr hv.1, mul_nonneg hr hv.2.1, mul_nonneg hr hv.2.2⟩

@[simp] theorem add_zero_v (v : Vec3) : v + 0 = v := by
  rw [ext_iff_comp]
  simp

@[simp] theorem zero_add_v (v : Vec3) : (0 : Vec3) + v = v := by
  rw [ext_iff_comp]
  simp

@[simp] theorem smul_zero_v (r : ℝ) : r • (0 : Vec3) = 0 := by
  rw [ext_iff_comp]
  simp

@[simp] theorem zero_smul_v (v : Vec3) : (0 : ℝ) • v = 0 := by
  rw [ext_iff_comp]
  simp

end Vec3

/- World axes used to seed the arbitrary orthonormal basis. -/
def X : Vec3 := ⟨1, 0, 0⟩

def Y : Vec3 := ⟨0, 1, 0⟩

/- Scene data model (scene.ts). -/

structure Camera where
  fovY : ℝ

structure Material where
  albedo : Vec3

structure Light where
  radiantPower : ℝ
  position : Vec3

structure Sphere where
  radius : ℝ
  position : Vec3
  material : String

/- The tagged union of scene objects; the JS discriminant field type is the
   constructor here. -/
inductive Object3D where
  | sphere (s : Sphere)
  | light (l : Light)

structure Scene where
  camera : Camera
  materials : List (String × Material)
  objects : List Object3D

/- objects.filter(o => o.type === "sphere") -/
def sceneSpheres (objects : List Object3D) : List Sphere :=
  objects.filterMap fun o =>
    match o with
    | .sphere s => some s
    | .light _ => none

/- objects.filter(o => o.type === "light") -/
def sceneLights (objects : List Object3D) : List Light :=
  objects.filterMap fun o =>
    match o with
    | .sphere _ => none
    | .light l => some l

/- Collision types (collision.ts). -/

structure Contact where
  position : Vec3
  normal : Vec3
  geometry : Sphere

structure Ray where
  origin : Vec3
  direction : Vec3

/- A line segment; the source fields are start and end, the latter renamed to
   stop because end is a Lean keyword. -/
structure Seg where
  start : Vec3
  stop : Vec3

noncomputable instance : DecidableEq Vec3 := fun _ _ => Classical.dec _

noncomputable instance : DecidableEq Sphere := fun _ _ => Classical.dec _

/- raySphereT: solve the quadratic for the nearest intersection parameter. -/
noncomputable def raySphereT (ray : Ray) (sphere : Sphere) : Option ℝ :=
  let oc := ray.origin - sphere.position
  let a := Vec3.sqrLen ray.direction
  let b := 2 * Vec3.dot oc ray.direction
  let c := Vec3.sqrLen oc - sphere.radius * sphere.radius
  let discriminant := b * b - 4 * a * c
  if discriminant < 0 then none
  else some ((-b - Real.sqrt discriminant) / (2 * a))

/- intersectRaySphere: contact for a non-negative root, none otherwise. -/
noncomputable def intersectRaySphere (ray : Ray) (sphere : Sphere) : Option Contact :=
  match raySphereT ray sphere with
  | none => none
  | some t =>
    if t < 0 then none
    else
      let position := ray.origin + t • ray.direction
      let normal := Vec3.normalize (position - sphere.position)
      some ⟨position, normal, sphere⟩

/- intersectSegSphere: like the ray case but accepting only 0 <= t <= 1. -/
noncomputable def intersectSegSphere (seg : Seg) (sphere : Sphere) : Option Contact :=
  let ray : Ray := ⟨seg.start, seg.stop - seg.start⟩
  match raySphereT ray sphere with
  | none => none
  | some t =>
    if t < 0 ∨ t > 1 then none
    else
      let position := seg.start + t • (seg.stop - seg.start)
      let normal := Vec3.normalize (position - sphere.position)
      some ⟨position, normal, sphere⟩

/- closestTo: the comparator ordering contacts by squared distance to a point;
   the JS comparator returns distA - distB, i.e. sorts ascending by this key. -/
def closestTo (point : Vec3) (a b : Contact) : Prop :=
  Vec3.sqrLen (a.position - point) ≤ Vec3.sqrLen (b.position - point)

noncomputable instance (point : Vec3) : DecidableRel (closestTo point) :=
  fun _ _ => Classical.dec _

/- cosineWeightedHemisphereSampleZ, with the two Math.random() draws made
   explicit parameters (u1 for the radius draw, u2 for the angle draw). -/
noncomputable def cosineWeightedHemisphereSampleZ (u1 u2 : ℝ) : Vec3 :=
  let r := Real.sqrt u1
  let theta := u2 * (2 * Real.pi)
  let x := r * Real.cos theta
  let y := r * Real.sin theta
  let z := Real.sqrt (max 0 (1 - x * x - y * y))
  ⟨x, y, z⟩

/- arbitraryBasis: a right-handed orthonormal basis (as the three matrix
   columns) whose Z axis is the argument. -/
noncomputable def arbitraryBasis (z : Vec3) : Vec3 × Vec3 × Vec3 :=
  let ref := if |z.y| < 0.9 then Y else X
  let x := Vec3.normalize (Vec3.cross z ref)
  let y := Vec3.cross z x
  (x, y, z)

/- cosineWeightedHemisphereSample: lift the local-space sample through the
   basis columns (vec3.transformMat3 with a column-major matrix). -/
noncomputable def cosineWeightedHemisphereSample (u1 u2 : ℝ) (normal : Vec3) : Vec3 :=
  let s := cosineWeightedHemisphereSampleZ u1 u2
  let b := arbitraryBasis normal
  s.x • b.1 + s.y • b.2.1 + s.z • b.2.2

/- Shading (shading.ts). -/

structure Dimensions where
  width : ℝ
  height : ℝ

structure Viewport where
  imagePlaneWidth : ℝ
  imagePlaneHeight : ℝ
  dims : Dimensions

/- The Viewport constructor. -/
noncomputable def Viewport.make (dims : Dimensions) (camera : Camera) : Viewport :=
  let planeHeight := 2 * Real.tan (camera.fovY / 2)
  ⟨planeHeight * (dims.width / dims.height), planeHeight, dims⟩

/- Viewport.rayForPixel. -/
noncomputable def Viewport.rayForPixel (vp : Viewport) (x y : ℝ) : Ray :=
  let pixelScreenX := (2 * x + 1) / vp.dims.width - 1
  let pixelScreenY := 1 - (2 * y + 1) / vp.dims.height
  let pixelWorldX := pixelScreenX * (vp.imagePlaneWidth / 2)
  let pixelWorldY := pixelScreenY * (vp.imagePlaneHeight / 2)
  ⟨0, ⟨pixelWorldX, pixelWorldY, -1⟩⟩

/- lambertTerm: albedo / pi scaled by the clamped cosine. -/
noncomputable def lambertTerm (toLight : Vec3) (normal : Vec3) (material : Material) : Vec3 :=
  max (Vec3.dot toLight normal) 0 • ((1 / Real.pi) • material.albedo)

/- evaluatePointLight: inverse-square irradiance of an isotropic point source
   times the Lambert term. -/
noncomputable def evaluatePointLight (light : Light) (contact : Contact)
    (material : Material) : Vec3 :=
  let toLight := light.position - contact.position
  let falloff := 1 / Vec3.sqrLen toLight
  let lightIntensity := light.radiantPower / (4 * Real.pi)
  let irradiance := lightIntensity * falloff
  let brdfCosine := lambertTerm (Vec3.normalize toLight) contact.normal material
  irradiance • brdfCosine

/- tonemapReinhard: the per-channel compressive map c / (1 + c). -/
noncomputable def tonemapReinhard (color : Vec3) : Vec3 :=
  ⟨color.x / (1 + color.x), color.y / (1 + color.y), color.z / (1 + color.z)⟩

/- Path tracer (trace.ts). -/

/- All ray-sphere contacts for the scene objects, in scene order. -/
noncomputable def rayHits (ray : Ray) (objects : List Object3D) : List Contact :=
  (sceneSpheres objects).filterMap fun s => intersectRaySphere ray s

/- The closest hit: head of the list sorted by the closestTo comparator. -/
noncomputable def nearestHit (ray : Ray) (objects : List Object3D) : Option Contact :=
  (List.insertionSort (closestTo ray.origin) (rayHits ray objects)).head?

/- Direct lighting: for each light sum the point-light contribution, zeroed
   when some other sphere occludes the shadow segment. -/
noncomputable def directLight (scene : Scene) (hit : Contact) (material : Material) : Vec3 :=
  ((sceneLights scene.objects).map fun light =>
    let shadowSeg : Seg := ⟨hit.position, light.position⟩
    let occluded := ((sceneSpheres scene.objects).filter
        fun s => decide (s ≠ hit.geometry)).any
      fun s => (intersectSegSphere shadowSeg s).isSome
    if occluded then (0 : Vec3) else evaluatePointLight light hit material).foldl
    (fun acc v => acc + v) 0

/- The indirect-lighting loop: indirectSamples trials, each drawing two
   uniform samples from the stream, building the biased bounce ray and adding
   albedo times the recursive radiance when the recursion yields a value.
   The recursion itself is passed in as recurse. -/
noncomputable def indirectFold (rng : ℕ → ℝ) (hit : Contact) (material : Material)
    (recurse : Ray → ℕ → Option Vec3 × ℕ) (indirectSamples : ℕ) (ctr : ℕ) : Vec3 × ℕ :=
  (List.range indirectSamples).foldl
    (fun acc _ =>
      match recurse
          ⟨hit.position + (0.001 : ℝ) • hit.normal,
            cosineWeightedHemisphereSample (rng acc.2) (rng (acc.2 + 1)) hit.normal⟩
          (acc.2 + 2) with
      | (some incoming, c2) => (acc.1 + material.albedo * incoming, c2)
      | (none, c2) => (acc.1, c2))
    ((0 : Vec3), ctr)

/- The recursive radiance estimator, structured on a fuel argument equal to
   toNat of the remaining depth: fuel 0 is the depth <= 0 base case.  The rng
   cursor is threaded left to right through the indirect-sample loop, two
   draws per hemisphere sample.  Divergence note: at indirectSamples = 0 the
   source scales the empty indirect sum by 1/0, which in IEEE arithmetic is
   Infinity and turns every component into 0 * Infinity = NaN, while the
   real-number convention used here gives 1/0 = 0 and a zero indirect term;
   for indirectSamples at least 1 the two agree, and whether the result is
   none is unaffected either way. -/
noncomputable def radianceAux (rng : ℕ → ℝ) (scene : Scene) (indirectSamples : ℕ) :
    ℕ → Ray → ℕ → Option Vec3 × ℕ
  | 0, _, ctr => (none, ctr)
  | fuel + 1, ray, ctr =>
    match nearestHit ray scene.objects with
    | none => (none, ctr)
    | some hit =>
      match List.lookup hit.geometry.material scene.materials with
      | none => (none, ctr)
      | some material =>
        let indirect := indirectFold rng hit material
          (fun r c => radianceAux rng scene indirectSamples fuel r c) indirectSamples ctr
        (some (directLight scene hit material +
          ((1 : ℝ) / (indirectSamples : ℝ)) • indirect.1), indirect.2)

/- radianceForRay: the entry point; depth counts down through the integers and
   the recursion fires only while it is positive. -/
noncomputable def radianceForRay (rng : ℕ → ℝ) (ray : Ray) (scene : Scene)
    (depth : ℤ) (indirectSamples : ℕ) (ctr : ℕ) : Option Vec3 × ℕ :=
  radianceAux rng scene indirectSamples depth.toNat ray ctr

/- Concrete inputs used to exercise the definitions: the end-to-end test
   scene of the spec (one red sphere, one light) and a shadow segment. -/

noncomputable def exSphere : Sphere := ⟨1, ⟨0, 0, -3⟩, "red"⟩

noncomputable def exLight : Light := ⟨1000, ⟨2, 2, -3⟩⟩

noncomputable def exMaterial : Material := ⟨⟨1, 0, 0⟩⟩

noncomputable def exScene : Scene :=
  ⟨⟨1⟩, [("red", exMaterial)], [Object3D.sphere exSphere, Object3D.light exLight]⟩

noncomputable def exRay : Ray := ⟨⟨0, 0, 0⟩, ⟨0, 0, -1⟩⟩

noncomputable def exContact : Contact := ⟨⟨0, 0, -2⟩, ⟨0, 0, 1⟩, exSphere⟩

noncomputable def exSeg : Seg := ⟨⟨0, 0, 0⟩, ⟨0, 0, -4⟩⟩

/- The contact the example segment produces on the example sphere. -/
noncomputable def segContact : Contact :=
  ⟨exSeg.start + (1 / 2 : ℝ) • (exSeg.stop - exSeg.start),
    Vec3.normalize (exSeg.start + (1 / 2 : ℝ) • (exSeg.stop - exSeg.start) -
      exSphere.position),
    exSphere⟩

/- Helper lemmas. -/

theorem foldlPreserve {α β : Type} (P : β → Prop) (f : β → α → β)
    (hf : ∀ b a, P b → P (f b a)) :
    ∀ (l : List α) (b : β), P b → P (l.foldl f b) := by
  intro l
  induction l with
  | nil =>
    intro b hb
    simpa using hb
  | cons a t ih =>
    intro b hb
    rw [List.foldl_cons]
    exact ih _ (hf b a hb)

theorem lookup_mem {β : Type} {l : List (String × β)} {k : String} {m : β}
    (h : List.lookup k l = some m) : (k, m) ∈ l := by
  induction l with
  | nil => simp [List.lookup] at h
  | cons p rest ih =>
    obtain ⟨k2, b⟩ := p
    by_cases hk : k = k2
    · subst hk
      simp [List.lookup] at h
      subst h
      exact List.mem_cons_self _ _
    · have hne : (k == k2) = false := beq_eq_false_iff_ne.mpr hk
      simp [List.lookup, hne] at h
      exact List.mem_cons_of_mem _ (ih h)

theorem rayHits_eq_nil_iff (ray : Ray) (objects : List Object3D) :
    rayHits ray objects = [] ↔
      ∀ s ∈ sceneSpheres objects, intersectRaySphere ray s = none := by
  unfold rayHits
  exact List.filterMap_eq_nil_iff

theorem nearestHit_eq_none_iff (ray : Ray) (objects : List Object3D) :
    nearestHit ray objects = none ↔
      ∀ s ∈ sceneSpheres objects, intersectRaySphere ray s = none := by
  unfold nearestHit
  rw [List.head?_eq_none_iff]
  have hperm := List.perm_insertionSort (closestTo ray.origin) (rayHits ray objects)
  constructor
  · intro h
    rw [h] at hperm
    exact (rayHits_eq_nil_iff ray objects).mp hperm.symm.eq_nil
  · intro h
    rw [show rayHits ray objects = [] from (rayHits_eq_nil_iff ray objects).mpr h]
    rfl

theorem evaluatePointLight_nonneg (light : Light) (contact : Contact) (material : Material)
    (ha : material.albedo.Nonneg) (hp : 0 ≤ light.radiantPower) :
    (evaluatePointLight light contact material).Nonneg := by
  unfold evaluatePointLight lambertTerm
  apply Vec3.Nonneg.smul
  · apply mul_nonneg
    · exact div_nonneg hp (by positivity)
    · exact one_div_nonneg.mpr (Vec3.sqrLen_nonneg _)
  · exact Vec3.Nonneg.smul (le_max_right _ 0)
      (Vec3.Nonneg.smul (one_div_nonneg.mpr Real.pi_pos.le) ha)

theorem foldl_add_nonneg (l : List Vec3) (h : ∀ v ∈ l, v.Nonneg) :
    (l.foldl (fun acc v => acc + v) 0).Nonneg := by
  have hgen : ∀ (t : List Vec3) (b : Vec3), b.Nonneg → (∀ v ∈ t, v.Nonneg) →
      (t.foldl (fun acc v => acc + v) b).Nonneg := by
    intro t
    induction t with
    | nil =>
      intro b hb _
      simpa using hb
    | cons a t2 ih =>
      intro b hb hm
      rw [List.foldl_cons]
      exact ih _ (hb.add (hm a (by simp))) fun v hv => hm v (by simp [hv])
  exact hgen l 0 Vec3.Nonneg.zero h

theorem directLight_nonneg (scene : Scene) (hit : Contact) (material : Material)
    (ha : material.albedo.Nonneg)
    (hl : ∀ l ∈ sceneLights scene.objects, 0 < l.radiantPower) :
    (directLight scene hit material).Nonneg := by
  unfold directLight
  apply foldl_add_nonneg
  intro v hv
  rw [List.mem_map] at hv
  obtain ⟨light, hlight, rfl⟩ := hv
  dsimp only
  split
  · exact Vec3.Nonneg.zero
  · exact evaluatePointLight_nonneg light hit material ha (hl light hlight).le

theorem indirectFold_nonneg (rng : ℕ → ℝ) (hit : Contact) (material : Material)
    (recurse : Ray → ℕ → Option Vec3 × ℕ) (n ctr : ℕ)
    (ha : material.albedo.Nonneg)
    (hrec : ∀ r c v, (recurse r c).1 = some v → v.Nonneg) :
    ((indirectFold rng hit material recurse n ctr).1).Nonneg := by
  unfold indirectFold
  apply foldlPreserve (fun acc : Vec3 × ℕ => acc.1.Nonneg)
  · intro b a hb
    rcases hcall : recurse
        ⟨hit.position + (0.001 : ℝ) • hit.normal,
          cosineWeightedHemisphereSample (rng b.2) (rng (b.2 + 1)) hit.normal⟩
        (b.2 + 2) with ⟨o, c⟩
    cases o with
    | none =>
      simp only [hcall]
      exact hb
    | some incoming =>
      simp only [hcall]
      exact hb.add (ha.mul (hrec _ _ _ (by rw [hcall])))
  · exact Vec3.Nonneg.zero

theorem radianceAux_nonneg (rng : ℕ → ℝ) (scene : Scene) (n : ℕ)
    (hmat : ∀ p ∈ scene.materials, Vec3.Nonneg p.2.albedo)
    (hl : ∀ l ∈ sceneLights scene.objects, 0 < l.radiantPower) :
    ∀ (fuel : ℕ) (ray : Ray) (ctr : ℕ) (v : Vec3),
      (radianceAux rng scene n fuel ray ctr).1 = some v → v.Nonneg := by
  intro fuel
  induction fuel with
  | zero =>
    intro ray ctr v h
    simp [radianceAux] at h
  | succ fuel ih =>
    intro ray ctr v h
    rw [radianceAux] at h
    split at h
    · simp at h
    · rename_i hit hnh
      split at h
      · simp at h
      · rename_i material hm
        dsimp only at h
        rw [Option.some.injEq] at h
        have ha : material.albedo.Nonneg := hmat _ (lookup_mem hm)
        have hfold := indirectFold_nonneg rng hit material
          (fun r c => radianceAux rng scene n fuel r c) n ctr ha
          fun r c v2 h2 => ih r c v2 h2
        rw [← h]
        exact (directLight_nonneg scene hit material ha hl).add
          (Vec3.Nonneg.smul (by positivity) hfold)

/- Concrete evaluations on the example scene. -/

theorem sqrt_four : Real.sqrt 4 = 2 := by
  rw [show (4 : ℝ) = 2 ^ 2 by norm_num, Real.sqrt_sq (by norm_num)]

theorem sqrt_nine : Real.sqrt 9 = 3 := by
  rw [show (9 : ℝ) = 3 ^ 2 by norm_num, Real.sqrt_sq (by norm_num)]

theorem raySphereT_ex : raySphereT exRay exSphere = some 2 := by
  unfold raySphereT exRay exSphere
  simp only [Vec3.dot, Vec3.sqrLen, Vec3.sub_x, Vec3.sub_y, Vec3.sub_z,
    Vec3.mk_x, Vec3.mk_y, Vec3.mk_z]
  norm_num
  rw [sqrt_four]
  norm_num

theorem intersectRaySphere_ex : intersectRaySphere exRay exSphere = some exContact := by
  unfold intersectRaySphere
  rw [raySphereT_ex]
  unfold exRay exContact exSphere Vec3.normalize
  simp only [Vec3.sqrLen, Vec3.sub_x, Vec3.sub_y, Vec3.sub_z, Vec3.add_x, Vec3.add_y,
    Vec3.add_z, Vec3.smul_x, Vec3.smul_y, Vec3.smul_z, Vec3.mk_x, Vec3.mk_y, Vec3.mk_z]
  norm_num [Real.sqrt_one]
  refine ⟨?_, ?_⟩ <;>
  · rw [Vec3.ext_iff_comp]
    norm_num

theorem nearestHit_ex : nearestHit exRay exScene.objects = some exContact := by
  unfold nearestHit rayHits exScene sceneSpheres
  simp [intersectRaySphere_ex, List.insertionSort]

theorem lookup_ex : List.lookup exContact.geometry.material exScene.materials
    = some exMaterial := by
  unfold exContact exSphere exScene
  simp [List.lookup]

theorem evaluatePointLight_ex : evaluatePointLight exLight exContact exMaterial = 0 := by
  unfold evaluatePointLight lambertTerm exLight exContact exMaterial Vec3.normalize
  simp only [Vec3.dot, Vec3.sqrLen, Vec3.sub_x, Vec3.sub_y, Vec3.sub_z, Vec3.smul_x,
    Vec3.smul_y, Vec3.smul_z, Vec3.mk_x, Vec3.mk_y, Vec3.mk_z]
  norm_num

theorem directLight_ex : directLight exScene exContact exMaterial = 0 := by
  have hdec : decide (exSphere ≠ exContact.geometry) = false :=
    decide_eq_false (by simp [exContact])
  unfold directLight exScene sceneLights sceneSpheres
  simp [hdec, evaluatePointLight_ex]

theorem radianceAux_zero (rng : ℕ → ℝ) (scene : Scene) (n : ℕ) (ray : Ray) (ctr : ℕ) :
    radianceAux rng scene n 0 ray ctr = (none, ctr) := by
  rw [radianceAux]

theorem radianceForRay_ex0 :
    (radianceForRay (fun _ => 0) exRay exScene 1 0 0).1 = some (0 : Vec3) := by
  unfold radianceForRay
  rw [show (1 : ℤ).toNat = 0 + 1 from rfl, radianceAux, nearestHit_ex]
  simp only [lookup_ex]
  rw [directLight_ex]
  simp [indirectFold]

theorem radianceForRay_ex1 :
    (radianceForRay (fun _ => 0) exRay exScene 1 1 0).1 = some (0 : Vec3) := by
  unfold radianceForRay
  rw [show (1 : ℤ).toNat = 0 + 1 from rfl, radianceAux, nearestHit_ex]
  simp only [lookup_ex]
  rw [directLight_ex]
  simp [indirectFold, List.range_succ, radianceAux_zero]

theorem intersectRaySphere_none_iff (ray : Ray) (sphere : Sphere) :
    intersectRaySphere ray sphere = none ↔
      raySphereT ray sphere = none ∨
        ∃ t, raySphereT ray sphere = some t ∧ t < 0 := by
  unfold intersectRaySphere
  cases h : raySphereT ray sphere with
  | none => simp
  | some t =>
    by_cases ht : t < 0
    · simp [ht]
    · simp [ht]

theorem intersectRaySphere_some (ray : Ray) (sphere : Sphere) (t : ℝ)
    (h : raySphereT ray sphere = some t) (ht : 0 ≤ t) :
    intersectRaySphere ray sphere =
      some ⟨ray.origin + t • ray.direction,
        Vec3.normalize (ray.origin + t • ray.direction - sphere.position), sphere⟩ := by
  unfold intersectRaySphere
  rw [h]
  simp [not_lt.mpr ht]

theorem intersectSegSphere_some (seg : Seg) (sphere : Sphere) (t : ℝ)
    (h1 : raySphereT ⟨seg.start, seg.stop - seg.start⟩ sphere = some t)
    (h2 : 0 ≤ t) (h3 : t ≤ 1) :
    intersectSegSphere seg sphere =
      some ⟨seg.start + t • (seg.stop - seg.start),
        Vec3.normalize (seg.start + t • (seg.stop - seg.start) - sphere.position),
        sphere⟩ := by
  unfold intersectSegSphere
  simp only [h1]
  rw [if_neg (by push_neg; exact ⟨h2, h3⟩)]

/- Claim theorems. -/

/-- C2: radianceForRay returns none exactly when the recursion depth is
exhausted (depth at most 0), or no sphere of the scene is hit by the ray
(every intersectRaySphere result is none, negative roots having been
discarded inside it), or the nearest hit resolves to no material in the
scene mapping; in every other case it returns a radiance value.  Totality of
the embedded function is the no-error part of the claim. -/
theorem radianceForRay_none_iff (rng : ℕ → ℝ) (ray : Ray) (scene : Scene)
    (depth : ℤ) (n ctr : ℕ) :
    (radianceForRay rng ray scene depth n ctr).1 = none ↔
      depth ≤ 0 ∨
        (∀ s ∈ sceneSpheres scene.objects, intersectRaySphere ray s = none) ∨
        ∃ hit, nearestHit ray scene.objects = some hit ∧
          List.lookup hit.geometry.material scene.materials = none := by
  unfold radianceForRay
  by_cases hd : depth ≤ 0
  · rw [Int.toNat_eq_zero.mpr hd]
    simp [radianceAux_zero, hd]
  · obtain ⟨m, hm⟩ : ∃ m, depth.toNat = m + 1 := by
      have hz : depth.toNat ≠ 0 := fun h0 => hd (Int.toNat_eq_zero.mp h0)
      exact ⟨depth.toNat - 1, by omega⟩
    rw [hm, radianceAux]
    cases hnh : nearestHit ray scene.objects with
    | none =>
      simp only [hnh]
      constructor
      · intro _
        exact Or.inr (Or.inl ((nearestHit_eq_none_iff ray scene.objects).mp hnh))
      · intro _
        trivial
    | some hit =>
      simp only [hnh]
      cases hmm : List.lookup hit.geometry.material scene.materials with
      | none =>
        simp only [hmm]
        constructor
        · intro _
          exact Or.inr (Or.inr ⟨hit, rfl, hmm⟩)
        · intro _
          trivial
      | some material =>
        simp only [hmm]
        constructor
        · intro h
          simp at h
        · rintro (h | h | ⟨hit2, hh2, hl2⟩)
          · exact absurd h hd
          · rw [(nearestHit_eq_none_iff ray scene.objects).mpr h] at hnh
            exact Option.noConfusion hnh
          · injection hh2 with he
            subst he
            rw [hmm] at hl2
            exact Option.noConfusion hl2

/-- C4: for a ray with non-zero direction, raySphereT returns none exactly
when the discriminant is negative and otherwise exactly the near root, with
no sign validation; intersectRaySphere returns none exactly when the root is
missing or negative and otherwise the contact with the stated position,
normal, and geometry. -/
theorem raySphereT_intersect_spec (ray : Ray) (sphere : Sphere) (oc : Vec3)
    (a b cc disc : ℝ)
    (hdir : ray.direction ≠ (⟨0, 0, 0⟩ : Vec3))
    (hoc : oc = ray.origin - sphere.position)
    (ha : a = Vec3.dot ray.direction ray.direction)
    (hb : b = 2 * Vec3.dot oc ray.direction)
    (hcc : cc = Vec3.dot oc oc - sphere.radius * sphere.radius)
    (hdisc : disc = b * b - 4 * a * cc) :
    (raySphereT ray sphere = none ↔ disc < 0) ∧
    (0 ≤ disc → raySphereT ray sphere = some ((-b - Real.sqrt disc) / (2 * a))) ∧
    (intersectRaySphere ray sphere = none ↔
      raySphereT ray sphere = none ∨
        ∃ t, raySphereT ray sphere = some t ∧ t < 0) ∧
    ∀ t, raySphereT ray sphere = some t → 0 ≤ t →
      intersectRaySphere ray sphere =
        some ⟨ray.origin + t • ray.direction,
          Vec3.normalize (ray.origin + t • ray.direction - sphere.position), sphere⟩ := by
  subst hoc ha hb hcc hdisc
  simp only [Vec3.dot_self_eq_sqrLen]
  refine ⟨?_, ?_, intersectRaySphere_none_iff ray sphere,
    fun t h1 h2 => intersectRaySphere_some ray sphere t h1 h2⟩
  · unfold raySphereT
    dsimp only
    split_ifs with hlt
    · simp [hlt]
    · simp [hlt]
  · intro hge
    unfold raySphereT
    dsimp only
    rw [if_neg (not_lt.mpr hge)]

/-- C5: intersectSegSphere forms the ray from start to end, computes t via
raySphereT, and yields a contact exactly when t exists with 0 <= t <= 1,
inclusive of both endpoints, and none otherwise. -/
theorem intersectSegSphere_spec (seg : Seg) (sphere : Sphere) :
    ((intersectSegSphere seg sphere).isSome ↔
      ∃ t, raySphereT ⟨seg.start, seg.stop - seg.start⟩ sphere = some t ∧
        0 ≤ t ∧ t ≤ 1) ∧
    ∀ t, raySphereT ⟨seg.start, seg.stop - seg.start⟩ sphere = some t →
      0 ≤ t → t ≤ 1 →
      intersectSegSphere seg sphere =
        some ⟨seg.start + t • (seg.stop - seg.start),
          Vec3.normalize (seg.start + t • (seg.stop - seg.start) - sphere.position),
          sphere⟩ := by
  constructor
  · unfold intersectSegSphere
    cases h : raySphereT ⟨seg.start, seg.stop - seg.start⟩ sphere with
    | none => simp [h]
    | some t =>
      by_cases hlo : t < 0
      · simp [h, hlo]
      · by_cases hhi : t > 1
        · simp [h, hlo, hhi]
        · simp [h, hlo, hhi]
          exact ⟨not_lt.mp hlo, not_lt.mp hhi⟩
  · exact fun t h1 h2 h3 => intersectSegSphere_some seg sphere t h1 h2 h3

/-- C9: intersectSegSphere agrees with intersectRaySphere on the induced ray:
contacts coincide whenever both functions return one, and the segment test
succeeds exactly when the ray test succeeds with parameter at most 1. -/
theorem intersectSegSphere_refines (seg : Seg) (sphere : Sphere) :
    (∀ c1 c2, intersectSegSphere seg sphere = some c1 →
      intersectRaySphere ⟨seg.start, seg.stop - seg.start⟩ sphere = some c2 →
      c1 = c2) ∧
    ((intersectSegSphere seg sphere).isSome ↔
      (intersectRaySphere ⟨seg.start, seg.stop - seg.start⟩ sphere).isSome ∧
        ∃ t, raySphereT ⟨seg.start, seg.stop - seg.start⟩ sphere = some t ∧
          t ≤ 1) := by
  unfold intersectSegSphere intersectRaySphere
  cases h : raySphereT ⟨seg.start, seg.stop - seg.start⟩ sphere with
  | none =>
    constructor
    · intro c1 c2 hc1
      simp [h] at hc1
    · simp [h]
  | some t =>
    by_cases hlo : t < 0
    · constructor
      · intro c1 c2 hc1
        simp [h, hlo] at hc1
      · simp [h, hlo]
    · by_cases hhi : t > 1
      · constructor
        · intro c1 c2 hc1
          simp [h, hlo, hhi] at hc1
        · simp [h, hlo, hhi]
      · constructor
        · intro c1 c2 hc1 hc2
          simp [h, hlo, hhi] at hc1
          simp [h, hlo] at hc2
          rw [← hc1, ← hc2]
        · simp [h, hlo, hhi]
          exact not_lt.mp hhi

/-- C10: for positive image dimensions, every ray produced by the viewport
has origin (0,0,0) and a direction with z component exactly -1, hence a
non-zero direction satisfying the Ray invariant. -/
theorem rayForPixel_spec (dims : Dimensions) (camera : Camera) (x y : ℝ)
    (hw : 0 < dims.width) (hh : 0 < dims.height) :
    ((Viewport.make dims camera).rayForPixel x y).origin = (0 : Vec3) ∧
    ((Viewport.make dims camera).rayForPixel x y).direction.z = -1 ∧
    ((Viewport.make dims camera).rayForPixel x y).direction ≠ (0 : Vec3) := by
  refine ⟨rfl, rfl, ?_⟩
  intro hcontra
  have hz := congrArg Vec3.z hcontra
  simp only [Vec3.zero_z] at hz
  exact absurd hz (by norm_num [Viewport.rayForPixel])

/-- C7: evaluatePointLight computes exactly the Lambert term of the unit
vector toward the light scaled by the inverse-square irradiance of an
isotropic point source of the given radiant power. -/
theorem evaluatePointLight_formula (light : Light) (contact : Contact)
    (material : Material) (h : light.position ≠ contact.position) :
    evaluatePointLight light contact material =
      (max (Vec3.dot (Vec3.normalize (light.position - contact.position))
          contact.normal) 0 *
        (light.radiantPower / (4 * Real.pi)) *
        (1 / Vec3.sqrLen (light.position - contact.position))) •
        ((1 / Real.pi) • material.albedo) := by
  unfold evaluatePointLight lambertTerm
  rw [Vec3.ext_iff_comp]
  simp only [Vec3.smul_x, Vec3.smul_y, Vec3.smul_z]
  refine ⟨?_, ?_, ?_⟩ <;> ring

theorem reinhard_mono {a b : ℝ} (ha : 0 ≤ a) (hab : a < b) :
    a / (1 + a) < b / (1 + b) := by
  have h1 : (0 : ℝ) < 1 + a := by linarith
  have h2 : (0 : ℝ) < 1 + b := by linarith
  rw [div_lt_div_iff₀ h1 h2]
  nlinarith

theorem reinhard_range {a : ℝ} (ha : 0 ≤ a) : 0 ≤ a / (1 + a) ∧ a / (1 + a) < 1 := by
  have h1 : (0 : ℝ) < 1 + a := by linarith
  refine ⟨by positivity, ?_⟩
  rw [div_lt_one h1]
  linarith

/-- C8: tonemapReinhard is the per-channel map c to c / (1 + c): it sends 0
to 0 and 1 to one half, is strictly increasing in each channel on
non-negative inputs, and maps every vector with non-negative components into
[0,1) componentwise, with no clamping. -/
theorem tonemapReinhard_spec :
    (∀ v : Vec3, tonemapReinhard v =
      ⟨v.x / (1 + v.x), v.y / (1 + v.y), v.z / (1 + v.z)⟩) ∧
    tonemapReinhard 0 = 0 ∧
    tonemapReinhard ⟨1, 1, 1⟩ = ⟨1 / 2, 1 / 2, 1 / 2⟩ ∧
    (∀ u v : Vec3, 0 ≤ u.x → u.x < v.x →
      (tonemapReinhard u).x < (tonemapReinhard v).x) ∧
    (∀ u v : Vec3, 0 ≤ u.y → u.y < v.y →
      (tonemapReinhard u).y < (tonemapReinhard v).y) ∧
    (∀ u v : Vec3, 0 ≤ u.z → u.z < v.z →
      (tonemapReinhard u).z < (tonemapReinhard v).z) ∧
    ∀ v : Vec3, v.Nonneg →
      (0 ≤ (tonemapReinhard v).x ∧ (tonemapReinhard v).x < 1) ∧
      (0 ≤ (tonemapReinhard v).y ∧ (tonemapReinhard v).y < 1) ∧
      (0 ≤ (tonemapReinhard v).z ∧ (tonemapReinhard v).z < 1) := by
  refine ⟨fun v => rfl, ?_, ?_, ?_, ?_, ?_, ?_⟩
  · unfold tonemapReinhard
    rw [Vec3.ext_iff_comp]
    norm_num
  · unfold tonemapReinhard
    rw [Vec3.ext_iff_comp]
    norm_num
  · intro u v hu huv
    exact reinhard_mono hu huv
  · intro u v hu huv
    exact reinhard_mono hu huv
  · intro u v hu huv
    exact reinhard_mono hu huv
  · intro v hv
    exact ⟨reinhard_range hv.1, reinhard_range hv.2.1, reinhard_range hv.2.2⟩

theorem sample_decomp (u1 u2 : ℝ) (normal : Vec3) :
    cosineWeightedHemisphereSample u1 u2 normal =
      (cosineWeightedHemisphereSampleZ u1 u2).x • (arbitraryBasis normal).1 +
      (cosineWeightedHemisphereSampleZ u1 u2).y • (arbitraryBasis normal).2.1 +
      (cosineWeightedHemisphereSampleZ u1 u2).z • (arbitraryBasis normal).2.2 := rfl

theorem arbitraryBasis_props (normal : Vec3) (hn : Vec3.sqrLen normal = 1) :
    Vec3.sqrLen (arbitraryBasis normal).1 = 1 ∧
    Vec3.sqrLen (arbitraryBasis normal).2.1 = 1 ∧
    (arbitraryBasis normal).2.2 = normal ∧
    Vec3.dot (arbitraryBasis normal).1 normal = 0 ∧
    Vec3.dot (arbitraryBasis normal).2.1 normal = 0 ∧
    Vec3.dot (arbitraryBasis normal).1 (arbitraryBasis normal).2.1 = 0 := by
  unfold arbitraryBasis
  dsimp only
  set ref := if |normal.y| < 0.9 then Y else X with href
  have href1 : Vec3.sqrLen ref = 1 := by
    rw [href]
    split_ifs <;> norm_num [Y, X, Vec3.sqrLen]
  have href2 : Vec3.dot normal ref ^ 2 < 1 := by
    rw [href]
    split_ifs with hy
    · have hdy : Vec3.dot normal Y = normal.y := by norm_num [Vec3.dot, Y]
      rw [hdy]
      have habs := abs_lt.mp hy
      nlinarith [habs.1, habs.2]
    · have hdx : Vec3.dot normal X = normal.x := by norm_num [Vec3.dot, X]
      rw [hdx]
      have habs : (0.9 : ℝ) ≤ |normal.y| := not_lt.mp hy
      have hy2 : (0.81 : ℝ) ≤ normal.y * normal.y := by
        nlinarith [abs_nonneg normal.y, abs_mul_abs_self normal.y]
      have hsl : normal.x * normal.x + normal.y * normal.y +
          normal.z * normal.z = 1 := hn
      nlinarith [mul_self_nonneg normal.z]
  have hcsq : Vec3.sqrLen (Vec3.cross normal ref) = 1 - Vec3.dot normal ref ^ 2 := by
    rw [Vec3.sqrLen_cross, hn, href1]
    ring
  have hcpos : 0 < Vec3.sqrLen (Vec3.cross normal ref) := by
    rw [hcsq]
    linarith
  have hb1 : Vec3.sqrLen (Vec3.normalize (Vec3.cross normal ref)) = 1 :=
    Vec3.sqrLen_normalize _ (ne_of_gt hcpos)
  have hbxn : Vec3.dot (Vec3.normalize (Vec3.cross normal ref)) normal = 0 := by
    unfold Vec3.normalize
    rw [Vec3.dot_smul_left, Vec3.dot_cross_left]
    ring
  have hb2 : Vec3.sqrLen (Vec3.cross normal
      (Vec3.normalize (Vec3.cross normal ref))) = 1 := by
    rw [Vec3.sqrLen_cross, hn, hb1, Vec3.dot_comm normal _, hbxn]
    ring
  have hbyn : Vec3.dot (Vec3.cross normal
      (Vec3.normalize (Vec3.cross normal ref))) normal = 0 :=
    Vec3.dot_cross_left normal _
  have hbxby : Vec3.dot (Vec3.normalize (Vec3.cross normal ref))
      (Vec3.cross normal (Vec3.normalize (Vec3.cross normal ref))) = 0 := by
    rw [Vec3.dot_comm]
    exact Vec3.dot_cross_right normal _
  exact ⟨hb1, hb2, rfl, hbxn, hbyn, hbxby⟩

theorem sampleZ_props (u1 u2 : ℝ) (h1 : 0 ≤ u1) (h2 : u1 < 1) :
    (cosineWeightedHemisphereSampleZ u1 u2).x * (cosineWeightedHemisphereSampleZ u1 u2).x +
      (cosineWeightedHemisphereSampleZ u1 u2).y *
        (cosineWeightedHemisphereSampleZ u1 u2).y = u1 ∧
    (cosineWeightedHemisphereSampleZ u1 u2).z *
      (cosineWeightedHemisphereSampleZ u1 u2).z = 1 - u1 ∧
    0 ≤ (cosineWeightedHemisphereSampleZ u1 u2).z := by
  unfold cosineWeightedHemisphereSampleZ
  dsimp only
  have hcs := Real.sin_sq_add_cos_sq (u2 * (2 * Real.pi))
  have hss := Real.sq_sqrt h1
  have hxy : Real.sqrt u1 * Real.cos (u2 * (2 * Real.pi)) *
      (Real.sqrt u1 * Real.cos (u2 * (2 * Real.pi))) +
      Real.sqrt u1 * Real.sin (u2 * (2 * Real.pi)) *
      (Real.sqrt u1 * Real.sin (u2 * (2 * Real.pi))) = u1 := by
    nlinarith [hcs, hss]
  refine ⟨hxy, ?_, Real.sqrt_nonneg _⟩
  have hmax : max 0 (1 - Real.sqrt u1 * Real.cos (u2 * (2 * Real.pi)) *
      (Real.sqrt u1 * Real.cos (u2 * (2 * Real.pi))) -
      Real.sqrt u1 * Real.sin (u2 * (2 * Real.pi)) *
      (Real.sqrt u1 * Real.sin (u2 * (2 * Real.pi)))) = 1 - u1 := by
    rw [show 1 - Real.sqrt u1 * Real.cos (u2 * (2 * Real.pi)) *
        (Real.sqrt u1 * Real.cos (u2 * (2 * Real.pi))) -
        Real.sqrt u1 * Real.sin (u2 * (2 * Real.pi)) *
        (Real.sqrt u1 * Real.sin (u2 * (2 * Real.pi))) = 1 - u1 by linarith]
    exact max_eq_right (by linarith)
  rw [hmax]
  exact Real.mul_self_sqrt (by linarith)

/-- C6: for a unit normal and uniform draws in [0,1), the Malley-method
sample, lifted through the arbitrary orthonormal basis whose reference axis
is world Y when the absolute y component of the normal is below 0.9 and
world X otherwise, is a unit vector with non-negative dot product against
the normal. -/
theorem cosineWeightedHemisphereSample_spec (normal : Vec3) (u1 u2 : ℝ)
    (hn : Vec3.sqrLen normal = 1) (h1 : 0 ≤ u1) (h2 : u1 < 1)
    (h3 : 0 ≤ u2) (h4 : u2 < 1) :
    Vec3.sqrLen (cosineWeightedHemisphereSample u1 u2 normal) = 1 ∧
    0 ≤ Vec3.dot (cosineWeightedHemisphereSample u1 u2 normal) normal := by
  obtain ⟨hb1, hb2, hb3, hb4, hb5, hb6⟩ := arbitraryBasis_props normal hn
  obtain ⟨hxy, hz2, hznn⟩ := sampleZ_props u1 u2 h1 h2
  rw [sample_decomp, hb3]
  constructor
  · rw [Vec3.sqrLen_expand, hb1, hb2, hn, hb6, hb4, hb5]
    nlinarith [hxy, hz2]
  · rw [Vec3.dot_expand, hb4, hb5, Vec3.dot_self_eq_sqrLen, hn]
    nlinarith [hznn]

theorem sqrt_sixtyfour : Real.sqrt 64 = 8 := by
  rw [show (64 : ℝ) = 8 ^ 2 by norm_num, Real.sqrt_sq (by norm_num)]

theorem raySphereT_seg_ex :
    raySphereT ⟨exSeg.start, exSeg.stop - exSeg.start⟩ exSphere = some (1 / 2) := by
  unfold raySphereT exSeg exSphere
  simp only [Vec3.dot, Vec3.sqrLen, Vec3.sub_x, Vec3.sub_y, Vec3.sub_z,
    Vec3.mk_x, Vec3.mk_y, Vec3.mk_z]
  norm_num
  rw [sqrt_sixtyfour]
  norm_num

theorem intersectRaySphere_seg_ex :
    intersectRaySphere ⟨exSeg.start, exSeg.stop - exSeg.start⟩ exSphere =
      some segContact :=
  intersectRaySphere_some _ exSphere (1 / 2) raySphereT_seg_ex (by norm_num)

/-- C1 (counterexample): on the end-to-end scene of the spec, the nearest
hit of the ray down the view axis is the contact at (0,0,-2), the clamped
cosine of the direct-lighting computation is negative (-1/3), and the
direct-lighting contribution is exactly (0,0,0): its red channel is 0 and
not strictly positive, refuting the claimed positive red channel; with
indirectSamples = 0 the indirect loop runs no trials, so no other term of
the program can contribute positive red. -/
theorem radianceForRay_example_red_not_positive :
    nearestHit exRay exScene.objects = some exContact ∧
    exContact.position = (⟨0, 0, -2⟩ : Vec3) ∧
    Vec3.dot (Vec3.normalize (exLight.position - exContact.position))
      exContact.normal = -(1 / 3) ∧
    directLight exScene exContact exMaterial = 0 ∧
    ¬ 0 < (directLight exScene exContact exMaterial).x := by
  refine ⟨nearestHit_ex, rfl, ?_, directLight_ex, ?_⟩
  · unfold exLight exContact Vec3.normalize
    simp only [Vec3.dot, Vec3.sqrLen, Vec3.sub_x, Vec3.sub_y, Vec3.sub_z,
      Vec3.smul_x, Vec3.smul_y, Vec3.smul_z, Vec3.mk_x, Vec3.mk_y, Vec3.mk_z]
    norm_num
    rw [sqrt_nine]
    norm_num
  · rw [directLight_ex]
    norm_num

/-- C1 (amended): the ray intersects the sphere at (0,0,-2), the call
returns a non-none radiance, and the direct-lighting computation produces
exactly 0 in every channel, the red channel included, because the unit
vector toward the light makes a negative cosine with the surface normal and
the Lambert term clamps it to zero.  No per-channel value of the returned
vector is asserted: with indirectSamples = 0 the source scales the empty
indirect sum by 1/0, so those components are not representable here. -/
theorem radianceForRay_example_spec :
    intersectRaySphere exRay exSphere = some exContact ∧
    exContact.position = (⟨0, 0, -2⟩ : Vec3) ∧
    (radianceForRay (fun _ => 0) exRay exScene 1 0 0).1 ≠ none ∧
    directLight exScene exContact exMaterial = 0 := by
  refine ⟨intersectRaySphere_ex, rfl, ?_, directLight_ex⟩
  rw [radianceForRay_ex0]
  simp

/-- C3: for a scene whose material albedos are componentwise non-negative
and whose lights have positive radiant power, every radiance value the
tracer returns is componentwise non-negative, for any depth, any positive
sample count, any random stream, and any cursor. -/
theorem radianceForRay_nonneg (rng : ℕ → ℝ) (ray : Ray) (scene : Scene)
    (depth : ℤ) (n ctr : ℕ) (v : Vec3)
    (hmat : ∀ p ∈ scene.materials, Vec3.Nonneg p.2.albedo)
    (hlight : ∀ l ∈ sceneLights scene.objects, 0 < l.radiantPower)
    (hn : 1 ≤ n)
    (h : (radianceForRay rng ray scene depth n ctr).1 = some v) :
    v.Nonneg :=
  radianceAux_nonneg rng scene n hmat hlight depth.toNat ray ctr v h

/- Witnesses. -/

theorem radianceForRay_nonneg_witness : Vec3.Nonneg (0 : Vec3) :=
  radianceForRay_nonneg (fun _ => 0) exRay exScene 1 1 0 0
    (by
      intro p hp
      simp only [exScene, List.mem_singleton] at hp
      rw [hp]
      exact ⟨by norm_num [exMaterial], by norm_num [exMaterial], by norm_num [exMaterial]⟩)
    (by
      intro l hl
      simp only [exScene, sceneLights, List.filterMap] at hl
      simp at hl
      rw [hl]
      norm_num [exLight])
    (by norm_num)
    radianceForRay_ex1

theorem raySphereT_intersect_spec_witness :
    raySphereT exRay exSphere = some ((-(-6) - Real.sqrt 4) / (2 * 1)) :=
  (raySphereT_intersect_spec exRay exSphere ⟨0, 0, 3⟩ 1 (-6) 8 4
    (by
      intro hq
      exact absurd (congrArg Vec3.z hq) (by norm_num [exRay]))
    (by
      rw [Vec3.ext_iff_comp]
      norm_num [exRay, exSphere])
    (by norm_num [Vec3.dot, exRay])
    (by norm_num [Vec3.dot, exRay])
    (by norm_num [Vec3.dot, exSphere])
    (by norm_num)).2.1 (by norm_num)

theorem intersectSegSphere_spec_witness :
    intersectSegSphere exSeg exSphere =
      some ⟨exSeg.start + (1 / 2 : ℝ) • (exSeg.stop - exSeg.start),
        Vec3.normalize (exSeg.start + (1 / 2 : ℝ) • (exSeg.stop - exSeg.start) -
          exSphere.position),
        exSphere⟩ :=
  (intersectSegSphere_spec exSeg exSphere).2 (1 / 2) raySphereT_seg_ex
    (by norm_num) (by norm_num)

theorem cosineWeightedHemisphereSample_spec_witness :
    Vec3.sqrLen (cosineWeightedHemisphereSample 0 0 ⟨0, 0, 1⟩) = 1 ∧
    0 ≤ Vec3.dot (cosineWeightedHemisphereSample 0 0 ⟨0, 0, 1⟩) ⟨0, 0, 1⟩ :=
  cosineWeightedHemisphereSample_spec ⟨0, 0, 1⟩ 0 0
    (by norm_num [Vec3.sqrLen]) le_rfl (by norm_num) le_rfl (by norm_num)

theorem evaluatePointLight_formula_witness :
    evaluatePointLight exLight exContact exMaterial =
      (max (Vec3.dot (Vec3.normalize (exLight.position - exContact.position))
          exContact.normal) 0 *
        (exLight.radiantPower / (4 * Real.pi)) *
        (1 / Vec3.sqrLen (exLight.position - exContact.position))) •
        ((1 / Real.pi) • exMaterial.albedo) :=
  evaluatePointLight_formula exLight exContact exMaterial
    (by
      intro hq
      exact absurd (congrArg Vec3.x hq) (by norm_num [exLight, exContact]))

theorem tonemapReinhard_spec_witness :
    (tonemapReinhard ⟨0, 0, 0⟩).x < (tonemapReinhard ⟨1, 1, 1⟩).x :=
  tonemapReinhard_spec.2.2.2.1 ⟨0, 0, 0⟩ ⟨1, 1, 1⟩ (by norm_num) (by norm_num)

theorem intersectSegSphere_refines_witness : segContact = segContact :=
  (intersectSegSphere_refines exSeg exSphere).1 segContact segContact
    (intersectSegSphere_some exSeg exSphere (1 / 2) raySphereT_seg_ex
      (by norm_num) (by norm_num))
    intersectRaySphere_seg_ex

theorem rayForPixel_spec_witness :
    ((Viewport.make ⟨256, 256⟩ ⟨1⟩).rayForPixel 0 0).origin = (0 : Vec3) ∧
    ((Viewport.make ⟨256, 256⟩ ⟨1⟩).rayForPixel 0 0).direction.z = -1 ∧
    ((Viewport.make ⟨256, 256⟩ ⟨1⟩).rayForPixel 0 0).direction ≠ (0 : Vec3) :=
  rayForPixel_spec ⟨256, 256⟩ ⟨1⟩ 0 0 (by norm_num) (by norm_num)

end Raytracer
